import Mathlib

/-!
Verification development for the Multi-Paxos replica core of `paxos-rs`.

The repository source provides `src/replica.rs` (the `Replica` orchestrator
and its `Commander` implementation) and `src/commands.rs` (the message
surface).  The per-slot acceptor, the proposer, the slot window, the ballot
type and the configuration live in modules that are not part of the sources
available here; those components are modelled from the specification and
are marked as such in their doc comments.  Everything in `Replica` is a
direct translation of `src/replica.rs`.
-/

namespace Paxos

/-- Node identifier: an opaque small integer. -/
abbrev NodeId := Nat

/-- Log slot: a non-negative integer position in the replicated log. -/
abbrev Slot := Nat

/-- Opaque byte-string value; the empty list is the distinguished no-op. -/
abbrev Value := List Nat

/-- Modelled from the spec: a ballot is a pair `(round, node)` with
lexicographic order (higher round wins, ties broken by higher node); the
`Ballot` type itself is not under `src/`. -/
structure Ballot where
  round : Nat
  node : NodeId
deriving DecidableEq, Repr

/-- Strict lexicographic comparison on ballots. -/
def Ballot.blt (a b : Ballot) : Bool :=
  decide (a.round < b.round) || (decide (a.round = b.round) && decide (a.node < b.node))

/-- Non-strict ballot comparison. -/
def Ballot.ble (a b : Ballot) : Bool :=
  Ballot.blt a b || decide (a = b)

/-- Modelled from the spec: the immutable configuration holds the local
node and the peer set (excluding self); the `Configuration` type is not
under `src/`. -/
structure Configuration where
  current : NodeId
  peers : List NodeId
deriving DecidableEq, Repr

/-- Modelled from the spec: phase-1 and phase-2 quorum sizes, both
`⌈(N+1)/2⌉` for cluster size `N = peers + 1`. -/
def Configuration.quorum_size (c : Configuration) : Nat × Nat :=
  (1 + c.peers.length / 2, 1 + c.peers.length / 2)

/-- Modelled from the spec: per-slot acceptor state (`src/acceptor.rs` is
not among the available sources): highest promised ballot, highest
accepted ballot-value pair, phase-2 voter set, and the terminal resolved
pair; the phase-2 quorum size is carried from the slot window. -/
structure Acceptor where
  quorum : Nat
  promised : Option Ballot
  accepted : Option (Ballot × Value)
  voters : Finset NodeId
  resolved : Option (Ballot × Value)
deriving DecidableEq

/-- Fresh acceptor with the given phase-2 quorum. -/
def Acceptor.new (quorum : Nat) : Acceptor :=
  { quorum := quorum, promised := none, accepted := none, voters := ∅, resolved := none }

/-- Response to a phase-1a prepare. -/
inductive PrepareResponse where
  | promise (value : Option (Ballot × Value))
  | reject (proposed preempted : Ballot)
deriving DecidableEq

/-- Response to a phase-2a accept. -/
inductive AcceptResponse where
  | accepted
  | reject (proposed preempted : Ballot)
  | noChange
deriving DecidableEq

/-- Modelled from the spec: `receive_prepare(b)`; if resolved, answer with
the resolved value as the accepted content of a promise; otherwise promise
`b` when `b ≥ promised` (or nothing was promised) and reject with the
preempting ballot when `b < promised`. -/
def Acceptor.receive_prepare (a : Acceptor) (b : Ballot) : Acceptor × PrepareResponse :=
  match a.resolved with
  | some rv => (a, .promise (some rv))
  | none =>
    match a.promised with
    | none => ({ a with promised := some b }, .promise a.accepted)
    | some p =>
      if Ballot.blt b p then (a, .reject b p)
      else ({ a with promised := some b }, .promise a.accepted)

/-- Modelled from the spec: `receive_accept(b, v)`; ignored when resolved;
when `b ≥ promised` (or nothing promised) store `promised = b`,
`accepted = (b, v)` and acknowledge, otherwise reject. -/
def Acceptor.receive_accept (a : Acceptor) (b : Ballot) (v : Value) : Acceptor × AcceptResponse :=
  match a.resolved with
  | some _ => (a, .noChange)
  | none =>
    match a.promised with
    | none => ({ a with promised := some b, accepted := some (b, v) }, .accepted)
    | some p =>
      if Ballot.blt b p then (a, .reject b p)
      else ({ a with promised := some b, accepted := some (b, v) }, .accepted)

/-- Modelled from the spec: `notice_value(b, v)` records `(b, v)` as the
accepted pair iff `b` is strictly greater than the currently accepted
ballot or nothing is accepted; `promised` is not touched. -/
def Acceptor.notice_value (a : Acceptor) (b : Ballot) (v : Value) : Acceptor :=
  match a.accepted with
  | none => { a with accepted := some (b, v) }
  | some (ab, _) =>
    if Ballot.blt ab b then { a with accepted := some (b, v) } else a

/-- Modelled from the spec: `receive_accepted(node, b)`; ignored once
resolved; a vote at the accepted ballot joins the voter set; a vote at a
strictly higher ballot drops the voter set and starts a new one at
`{node}`; lower-ballot votes are ignored. -/
def Acceptor.receive_accepted (a : Acceptor) (node : NodeId) (b : Ballot) : Acceptor :=
  match a.resolved with
  | some _ => a
  | none =>
    match a.accepted with
    | some (ab, _) =>
      if b = ab then { a with voters := insert node a.voters }
      else if Ballot.blt ab b then { a with voters := {node} }
      else a
    | none => a

/-- Modelled from the spec and pinned by `tests::replica_accepted` in
`src/src/replica.rs`: `resolution()` fires for the accepted `(b, v)` once
the recorded voters together with the acceptor itself reach the phase-2
quorum (the test resolves after two peer accepteds with `q2 = 3`, so the
local acceptor counts implicitly); the first firing transitions the slot
to `resolved = (b, v)`. -/
def Acceptor.resolution (a : Acceptor) : Acceptor × Option (Ballot × Value) :=
  match a.accepted with
  | some bv =>
    if a.quorum ≤ a.voters.card + 1 then
      match a.resolved with
      | some _ => (a, some bv)
      | none => ({ a with resolved := some bv }, some bv)
    else (a, none)
  | none => (a, none)

/-- Modelled from the spec: `resolve(b, v)` records the authoritative
external decision when not already resolved, also updating `accepted`;
idempotent. -/
def Acceptor.resolve (a : Acceptor) (b : Ballot) (v : Value) : Acceptor :=
  match a.resolved with
  | some _ => a
  | none => { a with resolved := some (b, v), accepted := some (b, v) }

/-- Modelled from the spec: `highest_value()` returns the accepted pair,
falling back to the resolved pair. -/
def Acceptor.highest_value (a : Acceptor) : Option (Ballot × Value) :=
  match a.accepted with
  | some bv => some bv
  | none => a.resolved

/-- Proposer role. -/
inductive ProposerStatus where
  | follower
  | candidate
  | leader
deriving DecidableEq, Repr

/-- Modelled from the spec: proposer state (`src/proposer.rs` is not among
the available sources): role, highest observed ballot, phase-1 promise
set and the phase-1 quorum size. -/
structure Proposer where
  node : NodeId
  quorum : Nat
  status : ProposerStatus
  highestObserved : Option Ballot
  promises : Finset NodeId
deriving DecidableEq

/-- Fresh follower proposer. -/
def Proposer.new (node : NodeId) (quorum : Nat) : Proposer :=
  { node := node, quorum := quorum, status := .follower,
    highestObserved := none, promises := ∅ }

/-- Modelled from the spec: `observe_ballot(b)` raises `highest_observed`
when `b` exceeds it and demotes a Candidate or Leader to Follower
(clearing the promises) when the ballot carries another node. -/
def Proposer.observe_ballot (p : Proposer) (b : Ballot) : Proposer :=
  let p1 :=
    match p.highestObserved with
    | none => { p with highestObserved := some b }
    | some h => if Ballot.blt h b then { p with highestObserved := some b } else p
  if b.node ≠ p1.node ∧ (p1.status = .candidate ∨ p1.status = .leader) then
    { p1 with status := .follower, promises := ∅ }
  else p1

/-- Modelled from the spec: `prepare()` mints a ballot whose round exceeds
the round of the highest observed ballot, moves to Candidate and clears
the promises. -/
def Proposer.prepare (p : Proposer) : Proposer × Ballot :=
  let r := match p.highestObserved with | none => 0 | some h => h.round + 1
  let b : Ballot := ⟨r, p.node⟩
  ({ p with status := .candidate, highestObserved := some b, promises := ∅ }, b)

/-- Modelled from the spec: `receive_promise(node, b)` is ignored unless
Candidate at exactly the highest observed ballot; the node joins the
promise set and the proposer becomes Leader once `q1 - 1` peers promised
(the local node counts implicitly). -/
def Proposer.receive_promise (p : Proposer) (node : NodeId) (b : Ballot) : Proposer :=
  if p.status = .candidate ∧ p.highestObserved = some b then
    let ps := insert node p.promises
    if p.quorum - 1 ≤ ps.card then { p with promises := ps, status := .leader }
    else { p with promises := ps }
  else p

/-- Modelled from the spec: `receive_reject` observes the preempting
ballot; the demotion is effected by `observe_ballot`. -/
def Proposer.receive_reject (p : Proposer) (_node : NodeId) (_proposed preempted : Ballot) :
    Proposer :=
  p.observe_ballot preempted

/-- A slot entry held by the window: a hole or a live acceptor. -/
inductive SlotEntry where
  | empty
  | opened (a : Acceptor)
deriving DecidableEq

/-- The four-variant view the window exposes for a slot (the Rust
`SlotMutRef`). -/
inductive SlotMutRef where
  | empty
  | opened (a : Acceptor)
  | resolved (b : Ballot) (v : Value)
  | resolutionTruncated
deriving DecidableEq

/-- Modelled from the spec: the slot window is a dense segment `[lo, hi)`
of slot entries plus the phase-2 quorum it hands to new acceptors
(`src/window.rs` is not among the available sources). -/
structure SlotWindow where
  quorum : Nat
  lo : Nat
  entries : List SlotEntry
deriving DecidableEq

/-- Fresh, empty window. -/
def SlotWindow.new (quorum : Nat) : SlotWindow :=
  { quorum := quorum, lo := 0, entries := [] }

/-- One past the highest slot ever materialised. -/
def SlotWindow.hi (w : SlotWindow) : Nat := w.lo + w.entries.length

/-- View of a single entry: an open acceptor that has resolved shows as
`resolved`. -/
def SlotEntry.view (e : SlotEntry) : SlotMutRef :=
  match e with
  | .empty => .empty
  | .opened a =>
    match a.resolved with
    | some (b, v) => .resolved b v
    | none => .opened a

/-- Modelled from the spec: `slot_mut(s)` returns `ResolutionTruncated`
below `lo`, the current variant inside `[lo, hi)`, and extends the window
with empty placeholders (yielding an empty handle) at or above `hi`. -/
def SlotWindow.slot_mut (w : SlotWindow) (s : Slot) : SlotWindow × SlotMutRef :=
  if s < w.lo then (w, .resolutionTruncated)
  else if s < w.hi then (w, (w.entries.getD (s - w.lo) .empty).view)
  else ({ w with entries := w.entries ++ List.replicate (s + 1 - w.hi) .empty }, .empty)

/-- Overwrite the entry at slot `s` (which must lie inside the window). -/
def SlotWindow.setEntry (w : SlotWindow) (s : Slot) (e : SlotEntry) : SlotWindow :=
  { w with entries := w.entries.set (s - w.lo) e }

/-- Apply `f` to the acceptor at slot `s` when that entry is open. -/
def SlotWindow.updateOpened (w : SlotWindow) (s : Slot) (f : Acceptor → Acceptor) : SlotWindow :=
  match w.entries.getD (s - w.lo) .empty with
  | .opened a => w.setEntry s (.opened (f a))
  | .empty => w

/-- Modelled from the spec: `next_slot()` materialises a fresh open
acceptor at `hi` and advances `hi`. -/
def SlotWindow.next_slot (w : SlotWindow) : SlotWindow × Slot :=
  ({ w with entries := w.entries ++ [.opened (Acceptor.new w.quorum)] }, w.hi)

/-- Modelled from the spec: scan from `lo`, emitting every resolved slot
whose predecessors are all resolved, truncating each emitted slot; stop at
the first open or empty slot. -/
def drainLoop : Nat → List SlotEntry → Nat × List SlotEntry × List (Slot × Value)
  | lo, [] => (lo, [], [])
  | lo, .empty :: rest => (lo, .empty :: rest, [])
  | lo, .opened a :: rest =>
    match a.resolved with
    | some (_, v) =>
      let r := drainLoop (lo + 1) rest
      (r.1, r.2.1, (lo, v) :: r.2.2)
    | none => (lo, .opened a :: rest, [])

/-- Modelled from the spec: `drain_decisions()` drains the resolved prefix
in ascending slot order, advancing `lo` past it. -/
def SlotWindow.drain_decisions (w : SlotWindow) : SlotWindow × List (Slot × Value) :=
  let r := drainLoop w.lo w.entries
  ({ w with lo := r.1, entries := r.2.1 }, r.2.2)

/-- An outbound message on the `Commander` surface (from
`src/commands.rs`, test `Command` enum). -/
inductive Msg where
  | proposal (val : Value)
  | prepare (bal : Ballot)
  | promise (node : NodeId) (bal : Ballot) (accepted : List (Slot × Ballot × Value))
  | accept (slot : Slot) (bal : Ballot) (val : Value)
  | reject (node : NodeId) (proposed preempted : Ballot)
  | accepted (node : NodeId) (slot : Slot) (bal : Ballot)
  | resolution (slot : Slot) (bal : Ballot) (val : Value)
deriving DecidableEq

/-- A message dispatched to one destination node. -/
abbrev Send := NodeId × Msg

/-- A state-machine application `execute(slot, value)`. -/
abbrev Exec := Slot × Value

/-- Replica state from `src/replica.rs`: configuration, proposer, window
and the pending proposal queue; the sender is replaced by the explicit
lists of sends and executes each operation returns. -/
structure Replica where
  config : Configuration
  proposer : Proposer
  window : SlotWindow
  proposalQueue : List Value
deriving DecidableEq

/-- `Replica::new`: quorum sizes come from the configuration. -/
def Replica.new (config : Configuration) : Replica :=
  { config := config
    proposer := Proposer.new config.current config.quorum_size.1
    window := SlotWindow.new config.quorum_size.2
    proposalQueue := [] }

/-- `Replica::broadcast`: send one message to every peer. -/
def Replica.broadcastMsg (r : Replica) (m : Msg) : List Send :=
  r.config.peers.map (fun n => (n, m))

/-- The phase-2 walk of `drive_accept` over the open range, expressed
structurally over the entry list with the slot counter: open slots rebind
their highest value (or the no-op) to the leader ballot and emit an
accept; empty slots are filled and bound to the no-op; resolved slots are
skipped. -/
def driveEntries (q : Nat) (bal : Ballot) : Slot → List SlotEntry →
    List SlotEntry × List (Slot × Ballot × Value)
  | _, [] => ([], [])
  | s, .empty :: rest =>
    let a := (Acceptor.new q).notice_value bal []
    let r := driveEntries q bal (s + 1) rest
    (.opened a :: r.1, (s, bal, []) :: r.2)
  | s, .opened a :: rest =>
    match a.resolved with
    | some _ =>
      let r := driveEntries q bal (s + 1) rest
      (.opened a :: r.1, r.2)
    | none =>
      match a.highest_value with
      | some (_, v) =>
        let r := driveEntries q bal (s + 1) rest
        (.opened (a.notice_value bal v) :: r.1, (s, bal, v) :: r.2)
      | none =>
        let r := driveEntries q bal (s + 1) rest
        (.opened (a.notice_value bal []) :: r.1, (s, bal, []) :: r.2)

/-- One queued proposal entering a fresh slot bound to the leader
ballot. -/
def queueSlot (bal : Ballot) (w : SlotWindow) (v : Value) : SlotWindow :=
  let p := w.next_slot
  p.1.updateOpened p.2 (fun a => a.notice_value bal v)

/-- `Replica::drive_accept`: a Leader drains the proposal queue into new
slots and broadcasts an accept for every open-range slot. -/
def Replica.drive_accept (r : Replica) : Replica × List Send :=
  match r.proposer.status with
  | .leader =>
    let bal := r.proposer.highestObserved.getD ⟨0, r.config.current⟩
    let w1 := r.proposalQueue.foldl (queueSlot bal) r.window
    let d := driveEntries w1.quorum bal w1.lo w1.entries
    let sends := d.2.flatMap
      (fun t => r.config.peers.map (fun n => (n, Msg.accept t.1 t.2.1 t.2.2)))
    ({ r with window := { w1 with entries := d.1 }, proposalQueue := [] }, sends)
  | _ => (r, [])

/-- `Replica::forward`: a Follower with queued proposals and a known
leader drains the queue to that leader in one burst. -/
def Replica.forward (r : Replica) : Replica × List Send :=
  if r.proposer.status ≠ .follower ∨ r.proposalQueue = [] then (r, [])
  else
    match r.proposer.highestObserved with
    | some b =>
      ({ r with proposalQueue := [] },
       r.proposalQueue.map (fun v => (b.node, Msg.proposal v)))
    | none => (r, [])

/-- `Replica::execute_decisions`: drain newly decided slots, delivering
only non-empty values to the state machine. -/
def Replica.execute_decisions (r : Replica) : Replica × List Exec :=
  let d := r.window.drain_decisions
  ({ r with window := d.1 }, d.2.filter (fun e => !e.2.isEmpty))

/-- `Commander::proposal` for `Replica`. -/
def Replica.proposal (r : Replica) (val : Value) : Replica × List Send × List Exec :=
  match r.proposer.status, r.proposer.highestObserved with
  | .follower, none =>
    let pb := Proposer.prepare r.proposer
    ({ r with proposer := pb.1, proposalQueue := r.proposalQueue ++ [val] },
     (r.broadcastMsg (Msg.prepare pb.2)), [])
  | .follower, some h =>
    (r, [(h.node, Msg.proposal val)], [])
  | .candidate, _ =>
    ({ r with proposalQueue := r.proposalQueue ++ [val] }, [], [])
  | .leader, h =>
    let bal := h.getD ⟨0, r.config.current⟩
    let p := r.window.next_slot
    let w := p.1.updateOpened p.2 (fun a => a.notice_value bal val)
    ({ r with window := w }, r.broadcastMsg (Msg.accept p.2 bal val), [])

/-- The phase-1 walk of `Commander::prepare` over the open range,
expressed structurally over the entry list with the slot counter: open
slots run `receive_prepare` (a reject aborts the walk), resolved slots
contribute their decision to the promise payload, empty slots are
skipped. -/
def prepEntries (b : Ballot) : Slot → List SlotEntry →
    (List SlotEntry × List (Slot × Ballot × Value)) ⊕ (List SlotEntry × Ballot × Ballot)
  | _, [] => .inl ([], [])
  | s, .empty :: rest =>
    match prepEntries b (s + 1) rest with
    | .inl (es, acc) => .inl (.empty :: es, acc)
    | .inr (es, pp) => .inr (.empty :: es, pp)
  | s, .opened a :: rest =>
    match a.resolved with
    | some (rb, rv) =>
      match prepEntries b (s + 1) rest with
      | .inl (es, acc) => .inl (.opened a :: es, (s, rb, rv) :: acc)
      | .inr (es, pp) => .inr (.opened a :: es, pp)
    | none =>
      match a.receive_prepare b with
      | (a1, .reject proposed preempted) => .inr (.opened a1 :: rest, proposed, preempted)
      | (a1, .promise value) =>
        let payload := match value with
          | some (ab, av) => [(s, ab, av)]
          | none => []
        match prepEntries b (s + 1) rest with
        | .inl (es, acc) => .inl (.opened a1 :: es, payload ++ acc)
        | .inr (es, pp) => .inr (.opened a1 :: es, pp)

/-- `Commander::prepare` for `Replica`: observe the ballot, walk the open
range, then answer `b.node` with a single promise, or a single reject on
the first preempted slot. -/
def Replica.prepare (r : Replica) (b : Ballot) : Replica × List Send × List Exec :=
  let p := r.proposer.observe_ballot b
  let nodeId := r.config.current
  match prepEntries b r.window.lo r.window.entries with
  | .inl (es, acc) =>
    ({ r with proposer := p, window := { r.window with entries := es } },
     [(b.node, Msg.promise nodeId b acc)], [])
  | .inr (es, proposed, preempted) =>
    ({ r with proposer := p, window := { r.window with entries := es } },
     [(b.node, Msg.reject nodeId proposed preempted)], [])

/-- Seeding of one recovered `(slot, ballot, value)` from a promise. -/
def seedSlot (w : SlotWindow) (t : Slot × Ballot × Value) : SlotWindow :=
  let m := w.slot_mut t.1
  match m.2 with
  | .opened a => m.1.setEntry t.1 (.opened (a.notice_value t.2.1 t.2.2))
  | .empty => m.1.setEntry t.1 (.opened ((Acceptor.new m.1.quorum).notice_value t.2.1 t.2.2))
  | _ => m.1

/-- `Commander::promise` for `Replica`: ignored unless Candidate; record
the promise, seed the recovered values, then try to drive phase 2. -/
def Replica.promise (r : Replica) (node : NodeId) (bal : Ballot)
    (accepted : List (Slot × Ballot × Value)) : Replica × List Send × List Exec :=
  match r.proposer.status with
  | .candidate =>
    let p := r.proposer.receive_promise node bal
    let w := accepted.foldl seedSlot r.window
    let d := Replica.drive_accept { r with proposer := p, window := w }
    (d.1, d.2, [])
  | _ => (r, [], [])

/-- `Commander::accept` for `Replica`: observe the ballot; an empty or
open slot runs `receive_accept` and the result is answered to the
ballot's node; resolved or truncated slots are ignored. -/
def Replica.accept (r : Replica) (slot : Slot) (bal : Ballot) (val : Value) :
    Replica × List Send × List Exec :=
  let p := r.proposer.observe_ballot bal
  let currentNode := r.config.current
  let m := r.window.slot_mut slot
  match m.2 with
  | .empty =>
    let ar := (Acceptor.new m.1.quorum).receive_accept bal val
    let w := m.1.setEntry slot (.opened ar.1)
    match ar.2 with
    | .accepted =>
      ({ r with proposer := p, window := w },
       [(bal.node, Msg.accepted currentNode slot bal)], [])
    | .reject proposed preempted =>
      ({ r with proposer := p, window := w },
       [(bal.node, Msg.reject currentNode proposed preempted)], [])
    | .noChange => ({ r with proposer := p, window := w }, [], [])
  | .opened a =>
    let ar := a.receive_accept bal val
    let w := m.1.setEntry slot (.opened ar.1)
    match ar.2 with
    | .accepted =>
      ({ r with proposer := p, window := w },
       [(bal.node, Msg.accepted currentNode slot bal)], [])
    | .reject proposed preempted =>
      ({ r with proposer := p, window := w },
       [(bal.node, Msg.reject currentNode proposed preempted)], [])
    | .noChange => ({ r with proposer := p, window := w }, [], [])
  | _ => ({ r with proposer := p, window := m.1 }, [], [])

/-- `Commander::reject` for `Replica`: record the rejection, then forward
queued proposals to the new leader. -/
def Replica.reject (r : Replica) (node : NodeId) (proposed promised : Ballot) :
    Replica × List Send × List Exec :=
  let p := r.proposer.receive_reject node proposed promised
  let f := Replica.forward { r with proposer := p }
  (f.1, f.2, [])

/-- `Commander::accepted` for `Replica`: observe the ballot; an open slot
records the vote and checks for resolution, broadcasting it and draining
decisions; empty or non-open slots are ignored. -/
def Replica.accepted (r : Replica) (node : NodeId) (slot : Slot) (bal : Ballot) :
    Replica × List Send × List Exec :=
  let p := r.proposer.observe_ballot bal
  let m := r.window.slot_mut slot
  match m.2 with
  | .opened a =>
    let ar := (a.receive_accepted node bal).resolution
    let w := m.1.setEntry slot (.opened ar.1)
    let sends := match ar.2 with
      | some (b, v) => r.config.peers.map (fun n => (n, Msg.resolution slot b v))
      | none => []
    let e := Replica.execute_decisions { r with proposer := p, window := w }
    (e.1, sends, e.2)
  | _ => ({ r with proposer := p, window := m.1 }, [], [])

/-- `Commander::resolution` for `Replica`: observe the ballot, resolve the
slot (filling an empty one first), then drain decisions. -/
def Replica.resolution (r : Replica) (slot : Slot) (bal : Ballot) (val : Value) :
    Replica × List Send × List Exec :=
  let p := r.proposer.observe_ballot bal
  let m := r.window.slot_mut slot
  let w := match m.2 with
    | .empty => m.1.setEntry slot (.opened ((Acceptor.new m.1.quorum).resolve bal val))
    | .opened a => m.1.setEntry slot (.opened (a.resolve bal val))
    | _ => m.1
  let e := Replica.execute_decisions { r with proposer := p, window := w }
  (e.1, [], e.2)

/-- An inbound `Commander` operation. -/
inductive Op where
  | proposal (val : Value)
  | prepare (bal : Ballot)
  | promise (node : NodeId) (bal : Ballot) (accepted : List (Slot × Ballot × Value))
  | accept (slot : Slot) (bal : Ballot) (val : Value)
  | reject (node : NodeId) (proposed preempted : Ballot)
  | accepted (node : NodeId) (slot : Slot) (bal : Ballot)
  | resolution (slot : Slot) (bal : Ballot) (val : Value)
deriving DecidableEq

/-- Dispatch one inbound operation. -/
def Replica.step (r : Replica) (op : Op) : Replica × List Send × List Exec :=
  match op with
  | .proposal v => r.proposal v
  | .prepare b => r.prepare b
  | .promise n b acc => r.promise n b acc
  | .accept s b v => r.accept s b v
  | .reject n p q => r.reject n p q
  | .accepted n s b => r.accepted n s b
  | .resolution s b v => r.resolution s b v

/-- Run a sequence of inbound operations, concatenating the sends and the
state-machine executions in order. -/
def Replica.run (r : Replica) : List Op → Replica × List Send × List Exec
  | [] => (r, [], [])
  | op :: ops =>
    let s := r.step op
    let t := s.1.run ops
    (t.1, s.2.1 ++ t.2.1, s.2.2 ++ t.2.2)

/-! Concrete test configuration: five nodes `{0,1,2,3,4}`, local node 4,
quorums `q1 = q2 = 3` (mirrors the `CONFIG` of the tests in
`src/replica.rs`). -/

/-- The five-node test configuration with local node 4. -/
def cfg5 : Configuration := ⟨4, [0, 1, 2, 3]⟩

/-- Ballot `(0, 4)`. -/
def b04 : Ballot := ⟨0, 4⟩

/-- The byte string `"123"`. -/
def v123 : Value := [49, 50, 51]

/-- The byte string `"456"`. -/
def v456 : Value := [52, 53, 54]

/-- Replica state after `proposal("123")` and promises from nodes 1, 0
and 2 at ballot `(0,4)`: leadership established, `"123"` bound to
slot 0. -/
def c2pre : Replica :=
  ((Replica.new cfg5).run
    [.proposal v123, .promise 1 b04 [], .promise 0 b04 [], .promise 2 b04 []]).1

/-- C2: after leadership at `(0,4)` with `"123"` bound to slot 0,
`accepted(0,0,(0,4))` emits nothing, and the subsequent
`accepted(2,0,(0,4))` broadcasts `Resolution(0,(0,4),"123")` to every
peer and executes `(0,"123")` on the state machine. -/
theorem accepted_quorum_triggers_resolution_scenario :
    (c2pre.step (.accepted 0 0 b04)).2.1 = [] ∧
    (c2pre.step (.accepted 0 0 b04)).2.2 = [] ∧
    ((c2pre.step (.accepted 0 0 b04)).1.step (.accepted 2 0 b04)).2.1 =
      [(0, Msg.resolution 0 b04 v123), (1, Msg.resolution 0 b04 v123),
       (2, Msg.resolution 0 b04 v123), (3, Msg.resolution 0 b04 v123)] ∧
    ((c2pre.step (.accepted 0 0 b04)).1.step (.accepted 2 0 b04)).2.2 =
      [(0, v123)] := by
  refine ⟨?_, ?_, ?_, ?_⟩ <;> decide

/-- Replica state after `proposal("123")` and
`promise(1,(0,4),[(2,(0,0),"456")])`: still Candidate, slot 2 seeded. -/
def c4pre : Replica :=
  ((Replica.new cfg5).run
    [.proposal v123, .promise 1 b04 [(2, ⟨0, 0⟩, v456)]]).1

/-- C4: the second promise completes phase 1 and the leader broadcasts,
to every peer and in slot order, `Accept(0,(0,4),noop)`,
`Accept(1,(0,4),noop)`, `Accept(2,(0,4),"456")`, `Accept(3,(0,4),"123")`:
holes 0 and 1 are materialised and bound to the no-op. -/
theorem promise_hole_filling_scenario :
    (c4pre.step (.promise 2 b04 [])).2.1 =
      [(0, Msg.accept 0 b04 []), (1, Msg.accept 0 b04 []),
       (2, Msg.accept 0 b04 []), (3, Msg.accept 0 b04 []),
       (0, Msg.accept 1 b04 []), (1, Msg.accept 1 b04 []),
       (2, Msg.accept 1 b04 []), (3, Msg.accept 1 b04 []),
       (0, Msg.accept 2 b04 v456), (1, Msg.accept 2 b04 v456),
       (2, Msg.accept 2 b04 v456), (3, Msg.accept 2 b04 v456),
       (0, Msg.accept 3 b04 v123), (1, Msg.accept 3 b04 v123),
       (2, Msg.accept 3 b04 v123), (3, Msg.accept 3 b04 v123)] := by
  decide

/-- An acceptor with phase-2 quorum 3, accepted pair `((0,4), "123")` and
voters `{0, 2}`: the state reached by slot 0 of the `c2pre` scenario
after both accepteds. -/
def c3acc : Acceptor :=
  { quorum := 3, promised := none, accepted := some (b04, v123),
    voters := {0, 2}, resolved := none }

/-- C3 counterexample: `resolution()` returns `Some` on an acceptor whose
recorded voter set has size 2, strictly below the configured phase-2
quorum `q2 = 3`, refuting `Some((b,v)) ↔ voters.card ≥ q2`. -/
theorem resolution_quorum_counterexample :
    (Acceptor.resolution c3acc).2 = some (b04, v123) ∧
    c3acc.voters.card < c3acc.quorum := by
  refine ⟨?_, ?_⟩ <;> decide

/-- C3 (amended): `resolution()` returns `Some((b, v))` iff the acceptor
has accepted `(b, v)` and the recorded voters together with the acceptor
itself reach the phase-2 quorum (`voters.card + 1 ≥ q2`); when it fires on
a not-yet-resolved acceptor, the acceptor transitions to
`resolved = (b, v)`. -/
theorem resolution_iff_quorum_with_self (a : Acceptor) (b : Ballot) (v : Value) :
    ((Acceptor.resolution a).2 = some (b, v) ↔
      a.accepted = some (b, v) ∧ a.quorum ≤ a.voters.card + 1) ∧
    (a.resolved = none → (Acceptor.resolution a).2 = some (b, v) →
      (Acceptor.resolution a).1.resolved = some (b, v)) := by
  unfold Acceptor.resolution
  rcases h : a.accepted with _ | bv
  · simp
  · by_cases hq : a.quorum ≤ a.voters.card + 1
    · rcases hr : a.resolved with _ | rv
      · simp only [hq, if_true, hr]
        refine ⟨⟨fun h1 => ⟨h1, trivial⟩, fun h1 => h1.1⟩, fun _ h1 => ?_⟩
        simpa using h1
      · simp [hq, hr]
    · simp [hq]

/-- Witness for the amended C3 theorem at a concrete acceptor with quorum
1 and an accepted value. -/
theorem resolution_iff_quorum_with_self_witness :
    (Acceptor.resolution
      { quorum := 1, promised := none, accepted := some (b04, v123),
        voters := ∅, resolved := none }).1.resolved = some (b04, v123) :=
  (resolution_iff_quorum_with_self
    { quorum := 1, promised := none, accepted := some (b04, v123),
      voters := ∅, resolved := none } b04 v123).2 (by decide) (by decide)

/-! Idempotence of operations on decided slots (claims about resolved and
truncated slots). -/

/-- A slot view that is already decided: resolved or truncated. -/
def SlotMutRef.isDecided : SlotMutRef → Bool
  | .empty => false
  | .opened _ => false
  | .resolved _ _ => true
  | .resolutionTruncated => true

/-- `slot_mut` leaves the window untouched when the slot's view is
decided (only an out-of-range slot extends the window, and it views as
empty). -/
theorem slot_mut_fst_of_isDecided (w : SlotWindow) (s : Slot)
    (h : ((w.slot_mut s).2).isDecided = true) : (w.slot_mut s).1 = w := by
  by_cases h1 : s < w.lo
  · simp [SlotWindow.slot_mut, h1]
  · by_cases h2 : s < w.hi
    · simp [SlotWindow.slot_mut, h1, h2]
    · have hv : (w.slot_mut s).2 = .empty := by
        simp [SlotWindow.slot_mut, h1, h2]
      rw [hv] at h
      simp [SlotMutRef.isDecided] at h

/-- If `drain_decisions` emits nothing, the window is unchanged. -/
theorem drainLoop_nil (lo : Nat) (es : List SlotEntry)
    (h : (drainLoop lo es).2.2 = []) :
    (drainLoop lo es).1 = lo ∧ (drainLoop lo es).2.1 = es := by
  match es with
  | [] => exact ⟨rfl, rfl⟩
  | .empty :: rest => exact ⟨rfl, rfl⟩
  | .opened a :: rest =>
    unfold drainLoop at *
    rcases hr : a.resolved with _ | ⟨b, v⟩
    · simp [hr] at h ⊢
    · simp [hr] at h

/-- C9: delivering `accept(slot, b, v)` for a slot that is already
resolved or truncated emits no message, executes nothing and changes no
slot state; the only effect is `observe_ballot(b)` on the proposer. -/
theorem accept_on_resolved_noop (r : Replica) (s : Slot) (b : Ballot) (v : Value)
    (h : ((r.window.slot_mut s).2).isDecided = true) :
    (r.accept s b v).1.window = r.window ∧
    (r.accept s b v).2.1 = [] ∧
    (r.accept s b v).2.2 = [] ∧
    (r.accept s b v).1.proposer = r.proposer.observe_ballot b ∧
    (r.accept s b v).1.proposalQueue = r.proposalQueue := by
  have hw := slot_mut_fst_of_isDecided r.window s h
  rcases hv : (r.window.slot_mut s).2 with _ | a | ⟨b0, v0⟩ | _
  · rw [hv] at h; simp [SlotMutRef.isDecided] at h
  · rw [hv] at h; simp [SlotMutRef.isDecided] at h
  · simp [Replica.accept, hv, hw]
  · simp [Replica.accept, hv, hw]

/-- Witness state for the decided-slot claims: slot 0 open and
unresolved, slot 1 resolved at `((0,4), "123")` but not yet drainable. -/
def decidedRep : Replica :=
  { config := cfg5
    proposer := Proposer.new 4 3
    window :=
      { quorum := 3, lo := 0
        entries := [.opened (Acceptor.new 3),
                    .opened ((Acceptor.new 3).resolve b04 v123)] }
    proposalQueue := [] }

/-- Witness for C9 at `decidedRep`, slot 1. -/
theorem accept_on_resolved_noop_witness :
    (decidedRep.accept 1 ⟨1, 2⟩ [7]).1.window = decidedRep.window ∧
    (decidedRep.accept 1 ⟨1, 2⟩ [7]).2.1 = [] ∧
    (decidedRep.accept 1 ⟨1, 2⟩ [7]).2.2 = [] ∧
    (decidedRep.accept 1 ⟨1, 2⟩ [7]).1.proposer =
      decidedRep.proposer.observe_ballot ⟨1, 2⟩ ∧
    (decidedRep.accept 1 ⟨1, 2⟩ [7]).1.proposalQueue = decidedRep.proposalQueue :=
  accept_on_resolved_noop decidedRep 1 ⟨1, 2⟩ [7] (by decide)

/-- C8: delivering `resolution(s, b, v)` to a replica with no pending
drainable decisions whose slot `s` is already resolved (or truncated) is
a no-op: the window (hence the decided pair of `s`) is unchanged, nothing
is executed and no message is emitted. -/
theorem resolution_on_resolved_noop (r : Replica) (s : Slot) (b : Ballot) (v : Value)
    (hview : ((r.window.slot_mut s).2).isDecided = true)
    (hdrained : (r.window.drain_decisions).2 = []) :
    (r.resolution s b v).1.window = r.window ∧
    (r.resolution s b v).2.1 = [] ∧
    (r.resolution s b v).2.2 = [] ∧
    (r.resolution s b v).1.proposalQueue = r.proposalQueue := by
  have hw := slot_mut_fst_of_isDecided r.window s hview
  obtain ⟨hlo, hes⟩ := drainLoop_nil r.window.lo r.window.entries hdrained
  have hds : (drainLoop r.window.lo r.window.entries).2.2 = [] := hdrained
  rcases hv : (r.window.slot_mut s).2 with _ | a | ⟨b0, v0⟩ | _
  · rw [hv] at hview; simp [SlotMutRef.isDecided] at hview
  · rw [hv] at hview; simp [SlotMutRef.isDecided] at hview
  · simp [Replica.resolution, Replica.execute_decisions, SlotWindow.drain_decisions,
      hv, hw, hlo, hes, hds]
  · simp [Replica.resolution, Replica.execute_decisions, SlotWindow.drain_decisions,
      hv, hw, hlo, hes, hds]

/-- Witness for C8 at `decidedRep`, slot 1. -/
theorem resolution_on_resolved_noop_witness :
    (decidedRep.resolution 1 ⟨1, 2⟩ [7]).1.window = decidedRep.window ∧
    (decidedRep.resolution 1 ⟨1, 2⟩ [7]).2.1 = [] ∧
    (decidedRep.resolution 1 ⟨1, 2⟩ [7]).2.2 = [] ∧
    (decidedRep.resolution 1 ⟨1, 2⟩ [7]).1.proposalQueue = decidedRep.proposalQueue :=
  resolution_on_resolved_noop decidedRep 1 ⟨1, 2⟩ [7] (by decide) (by decide)

/-! Ballot monotonicity of the proposer across inbound operations. -/

/-- Non-strict order on optional ballots: `none` lies below everything. -/
def obLE : Option Ballot → Option Ballot → Bool
  | none, _ => true
  | some _, none => false
  | some a, some b => a.ble b

/-- Ballot `ble` is reflexive. -/
theorem ble_refl (a : Ballot) : a.ble a = true := by
  simp [Ballot.ble]

/-- `obLE` is reflexive. -/
theorem obLE_refl (o : Option Ballot) : obLE o o = true := by
  cases o <;> simp [obLE, ble_refl]

/-- `observe_ballot` never lowers the highest observed ballot. -/
theorem observe_ballot_obLE (p : Proposer) (b : Ballot) :
    obLE p.highestObserved (p.observe_ballot b).highestObserved = true := by
  unfold Proposer.observe_ballot
  rcases hh : p.highestObserved with _ | h
  · simp [hh, obLE]
  · simp only [hh]
    by_cases hb : Ballot.blt h b
    · simp only [if_pos hb]
      split <;> simp [obLE, Ballot.ble, hb]
    · simp only [if_neg hb]
      split <;> simp [hh, obLE_refl]

/-- `receive_promise` does not change the highest observed ballot. -/
theorem receive_promise_highest (p : Proposer) (n : NodeId) (b : Ballot) :
    (p.receive_promise n b).highestObserved = p.highestObserved := by
  unfold Proposer.receive_promise
  split
  · dsimp only
    split <;> rfl
  · rfl

/-- `drive_accept` does not touch the proposer. -/
theorem drive_accept_proposer (r : Replica) :
    (r.drive_accept).1.proposer = r.proposer := by
  unfold Replica.drive_accept
  rcases r.proposer.status <;> rfl

/-- A non-Leader `drive_accept` emits nothing. -/
theorem drive_accept_sends_of_ne_leader (r : Replica)
    (h : r.proposer.status ≠ .leader) : (r.drive_accept).2 = [] := by
  unfold Replica.drive_accept
  rcases hs : r.proposer.status
  all_goals simp_all

/-- `forward` does not touch the proposer. -/
theorem forward_proposer (r : Replica) :
    (r.forward).1.proposer = r.proposer := by
  unfold Replica.forward
  split
  · rfl
  · rcases r.proposer.highestObserved <;> rfl

/-- `execute_decisions` does not touch the proposer. -/
theorem execute_decisions_proposer (r : Replica) :
    (r.execute_decisions).1.proposer = r.proposer := rfl

/-- `Commander::prepare` sets the proposer to `observe_ballot`. -/
theorem prepare_proposer (r : Replica) (b : Ballot) :
    (r.prepare b).1.proposer = r.proposer.observe_ballot b := by
  unfold Replica.prepare
  rcases hm : prepEntries b r.window.lo r.window.entries with ⟨es, acc⟩ | ⟨es, pp⟩ <;>
    simp [hm]

/-- `Commander::accept` sets the proposer to `observe_ballot`. -/
theorem accept_proposer (r : Replica) (s : Slot) (b : Ballot) (v : Value) :
    (r.accept s b v).1.proposer = r.proposer.observe_ballot b := by
  unfold Replica.accept
  rcases hv : (r.window.slot_mut s).2 with _ | a | ⟨b0, v0⟩ | _ <;>
    simp [hv] <;> split <;> rfl

/-- `Commander::accepted` sets the proposer to `observe_ballot`. -/
theorem accepted_proposer (r : Replica) (n : NodeId) (s : Slot) (b : Ballot) :
    (r.accepted n s b).1.proposer = r.proposer.observe_ballot b := by
  unfold Replica.accepted
  rcases hv : (r.window.slot_mut s).2 with _ | a | ⟨b0, v0⟩ | _ <;> simp [hv]
  exact execute_decisions_proposer _

/-- `Commander::resolution` sets the proposer to `observe_ballot`. -/
theorem resolution_proposer (r : Replica) (s : Slot) (b : Ballot) (v : Value) :
    (r.resolution s b v).1.proposer = r.proposer.observe_ballot b := by
  unfold Replica.resolution
  rcases hv : (r.window.slot_mut s).2 with _ | a | ⟨b0, v0⟩ | _ <;> simp [hv] <;>
    exact execute_decisions_proposer _

/-- C7: across every inbound `Commander` operation the proposer's highest
observed ballot never decreases under the ballot order (round first, node
breaking ties). -/
theorem highest_observed_monotone (r : Replica) (op : Op) :
    obLE r.proposer.highestObserved ((r.step op).1).proposer.highestObserved = true := by
  cases op with
  | proposal v =>
    show obLE _ ((r.proposal v).1).proposer.highestObserved = true
    unfold Replica.proposal
    rcases hs : r.proposer.status <;> rcases hh : r.proposer.highestObserved with _ | h <;>
      simp [hs, hh, obLE, ble_refl]
  | prepare b =>
    show obLE _ ((r.prepare b).1).proposer.highestObserved = true
    rw [prepare_proposer]
    exact observe_ballot_obLE r.proposer b
  | promise n b acc =>
    show obLE _ ((r.promise n b acc).1).proposer.highestObserved = true
    unfold Replica.promise
    rcases hs : r.proposer.status <;> simp [hs, obLE_refl]
    rw [drive_accept_proposer]
    simp [receive_promise_highest, obLE_refl]
  | accept s b v =>
    show obLE _ ((r.accept s b v).1).proposer.highestObserved = true
    rw [accept_proposer]
    exact observe_ballot_obLE r.proposer b
  | reject n p q =>
    show obLE _ ((r.reject n p q).1).proposer.highestObserved = true
    unfold Replica.reject
    rw [forward_proposer]
    exact observe_ballot_obLE r.proposer q
  | accepted n s b =>
    show obLE _ ((r.accepted n s b).1).proposer.highestObserved = true
    rw [accepted_proposer]
    exact observe_ballot_obLE r.proposer b
  | resolution s b v =>
    show obLE _ ((r.resolution s b v).1).proposer.highestObserved = true
    rw [resolution_proposer]
    exact observe_ballot_obLE r.proposer b

/-! Accept messages are emitted only by a Leader. -/

/-- Membership in a per-peer broadcast pins the message. -/
theorem mem_broadcast {d : NodeId} {m m' : Msg} {l : List NodeId}
    (h : (d, m) ∈ l.map (fun n => (n, m'))) : m = m' := by
  obtain ⟨n, _, he⟩ := List.mem_map.1 h
  cases he
  rfl

/-- Any send produced by `drive_accept` certifies a Leader. -/
theorem drive_accept_mem_leader (r : Replica) (x : Send)
    (h : x ∈ (r.drive_accept).2) : (r.drive_accept).1.proposer.status = .leader := by
  by_cases hl : r.proposer.status = .leader
  · rw [drive_accept_proposer]; exact hl
  · rw [drive_accept_sends_of_ne_leader r hl] at h
    simp at h

/-- C6: an outbound `Accept(s, b, v)` is emitted by an inbound operation
only while the proposer is Leader (the status at the point of emission,
which is also the post-state status: nothing after the emission demotes
it within the same operation). -/
theorem accept_emitted_only_as_leader (r : Replica) (op : Op) (d : NodeId)
    (s : Slot) (b : Ballot) (v : Value)
    (h : (d, Msg.accept s b v) ∈ (r.step op).2.1) :
    ((r.step op).1).proposer.status = .leader := by
  cases op with
  | proposal val =>
    simp only [Replica.step] at h ⊢
    unfold Replica.proposal at h ⊢
    rcases hs : r.proposer.status <;> rcases hh : r.proposer.highestObserved with _ | hb <;>
      simp [hs, hh, Replica.broadcastMsg] at h ⊢
  | prepare bal =>
    simp only [Replica.step] at h
    unfold Replica.prepare at h
    rcases hm : prepEntries bal r.window.lo r.window.entries with ⟨es, acc⟩ | ⟨es, pp⟩ <;>
      simp [hm] at h
  | promise n bal acc =>
    simp only [Replica.step] at h ⊢
    unfold Replica.promise at h ⊢
    rcases hs : r.proposer.status <;> simp [hs] at h ⊢
    exact drive_accept_mem_leader _ _ h
  | accept s' b' v' =>
    simp only [Replica.step] at h
    unfold Replica.accept at h
    rcases hv : (r.window.slot_mut s').2 with _ | a | ⟨b0, v0⟩ | _ <;> simp [hv] at h <;>
      split at h <;> simp at h
  | reject n p' q' =>
    simp only [Replica.step] at h
    unfold Replica.reject Replica.forward at h
    dsimp only at h
    split at h
    · simp at h
    · split at h <;> simp at h
  | accepted n s' b' =>
    simp only [Replica.step] at h
    unfold Replica.accepted at h
    rcases hv : (r.window.slot_mut s').2 with _ | a | ⟨b0, v0⟩ | _ <;> simp [hv] at h
    split at h <;> simp at h
  | resolution s' b' v' =>
    simp only [Replica.step] at h
    unfold Replica.resolution at h
    simp at h

/-- Witness for C6: the promise that completes phase 1 in the
hole-filling scenario emits accepts and leaves the proposer Leader. -/
theorem accept_emitted_only_as_leader_witness :
    ((c4pre.step (.promise 2 b04 [])).1).proposer.status = .leader :=
  accept_emitted_only_as_leader c4pre (.promise 2 b04 []) 0 0 b04 [] (by decide)

/-! Phase-1 handling: the single promise or single reject of `prepare`. -/

/-- Whether an entry rejects ballot `b` during phase 1: an open,
unresolved acceptor that promised a strictly higher ballot. -/
def SlotEntry.rejects (b : Ballot) : SlotEntry → Bool
  | .empty => false
  | .opened a =>
    a.resolved.isNone &&
      (match a.promised with
       | some p => Ballot.blt b p
       | none => false)

/-- The payload a full phase-1 walk collects, in slot order: the accepted
pair of every open unresolved slot that has one and the decision of every
resolved slot. -/
def promisePayload : Slot → List SlotEntry → List (Slot × Ballot × Value)
  | _, [] => []
  | s, .empty :: rest => promisePayload (s + 1) rest
  | s, .opened a :: rest =>
    match a.resolved with
    | some (rb, rv) => (s, rb, rv) :: promisePayload (s + 1) rest
    | none =>
      match a.accepted with
      | some (ab, av) => (s, ab, av) :: promisePayload (s + 1) rest
      | none => promisePayload (s + 1) rest

/-- Every slot of the payload is at or above the starting slot. -/
theorem promisePayload_lb :
    ∀ (es : List SlotEntry) (s : Slot) (x : Slot × Ballot × Value),
      x ∈ promisePayload s es → s ≤ x.1 := by
  intro es
  induction es with
  | nil => intro s x hx; simp [promisePayload] at hx
  | cons e rest ih =>
    intro s x hx
    cases e with
    | empty =>
      have h1 := ih (s + 1) x (by simpa [promisePayload] using hx)
      exact Nat.le_of_succ_le h1
    | opened a =>
      rcases hr : a.resolved with _ | ⟨rb, rv⟩
      · rcases ha : a.accepted with _ | ⟨ab, av⟩
        · have h1 := ih (s + 1) x (by simpa [promisePayload, hr, ha] using hx)
          exact Nat.le_of_succ_le h1
        · simp [promisePayload, hr, ha] at hx
          rcases hx with rfl | hx
          · simp
          · have h1 := ih (s + 1) x hx
            exact Nat.le_of_succ_le h1
      · simp [promisePayload, hr] at hx
        rcases hx with rfl | hx
        · simp
        · have h1 := ih (s + 1) x hx
          exact Nat.le_of_succ_le h1

/-- The payload is strictly ascending in the slot component. -/
theorem promisePayload_sorted :
    ∀ (es : List SlotEntry) (s : Slot),
      (promisePayload s es).Pairwise (fun x y => x.1 < y.1) := by
  intro es
  induction es with
  | nil => intro s; simp [promisePayload]
  | cons e rest ih =>
    intro s
    cases e with
    | empty => simpa [promisePayload] using ih (s + 1)
    | opened a =>
      rcases hr : a.resolved with _ | ⟨rb, rv⟩
      · rcases ha : a.accepted with _ | ⟨ab, av⟩
        · simpa [promisePayload, hr, ha] using ih (s + 1)
        · simp only [promisePayload, hr, ha]
          refine List.pairwise_cons.2 ⟨fun y hy => ?_, ih (s + 1)⟩
          have := promisePayload_lb rest (s + 1) y hy
          simpa using this
      · simp only [promisePayload, hr]
        refine List.pairwise_cons.2 ⟨fun y hy => ?_, ih (s + 1)⟩
        have := promisePayload_lb rest (s + 1) y hy
        simpa using this

/-- When no entry rejects `b`, the phase-1 walk completes and collects
exactly the promise payload. -/
theorem prepEntries_no_reject (b : Ballot) :
    ∀ (es : List SlotEntry) (s : Slot),
      (∀ e ∈ es, SlotEntry.rejects b e = false) →
      ∃ es', prepEntries b s es = .inl (es', promisePayload s es) := by
  intro es
  induction es with
  | nil => intro s _; exact ⟨[], rfl⟩
  | cons e rest ih =>
    intro s h
    obtain ⟨es', hes'⟩ := ih (s + 1) (fun x hx => h x (List.mem_cons_of_mem _ hx))
    have he := h e (List.mem_cons_self e rest)
    cases e with
    | empty =>
      exact ⟨.empty :: es', by simp [prepEntries, hes', promisePayload]⟩
    | opened a =>
      rcases hr : a.resolved with _ | ⟨rb, rv⟩
      · simp only [SlotEntry.rejects, hr, Option.isNone_none, Bool.true_and] at he
        rcases hp : a.promised with _ | p
        · rcases ha : a.accepted with _ | ⟨ab, av⟩ <;>
            exact ⟨.opened { a with promised := some b } :: es',
              by simp [prepEntries, Acceptor.receive_prepare, hr, hp, ha, hes', promisePayload]⟩
        · simp only [hp] at he
          rcases ha : a.accepted with _ | ⟨ab, av⟩ <;>
            exact ⟨.opened { a with promised := some b } :: es',
              by simp [prepEntries, Acceptor.receive_prepare, hr, hp, he, ha, hes', promisePayload]⟩
      · exact ⟨.opened a :: es', by simp [prepEntries, hr, hes', promisePayload]⟩

/-- When some entry rejects `b`, the phase-1 walk aborts with a reject
whose proposed ballot is `b`. -/
theorem prepEntries_reject_exists (b : Ballot) :
    ∀ (es : List SlotEntry) (s : Slot),
      (∃ e ∈ es, SlotEntry.rejects b e = true) →
      ∃ es' p, prepEntries b s es = .inr (es', b, p) := by
  intro es
  induction es with
  | nil => intro s h; simp at h
  | cons e rest ih =>
    intro s h
    by_cases he : SlotEntry.rejects b e = true
    · cases e with
      | empty => simp [SlotEntry.rejects] at he
      | opened a =>
        rcases hr : a.resolved with _ | ⟨rb, rv⟩
        · simp only [SlotEntry.rejects, hr, Option.isNone_none, Bool.true_and] at he
          rcases hp : a.promised with _ | p
          · simp [hp] at he
          · simp only [hp] at he
            exact ⟨.opened a :: rest, p,
              by simp [prepEntries, Acceptor.receive_prepare, hr, hp, he]⟩
        · simp [SlotEntry.rejects, hr] at he
    · rw [Bool.not_eq_true] at he
      have h' : ∃ x ∈ rest, SlotEntry.rejects b x = true := by
        rcases h with ⟨x, hx, hxr⟩
        rcases List.mem_cons.1 hx with rfl | hx'
        · rw [he] at hxr; cases hxr
        · exact ⟨x, hx', hxr⟩
      obtain ⟨es', p, hres⟩ := ih (s + 1) h'
      cases e with
      | empty => exact ⟨.empty :: es', p, by simp [prepEntries, hres]⟩
      | opened a =>
        rcases hr : a.resolved with _ | ⟨rb, rv⟩
        · simp only [SlotEntry.rejects, hr, Option.isNone_none, Bool.true_and] at he
          rcases hp : a.promised with _ | pp
          · exact ⟨.opened { a with promised := some b } :: es', p,
              by simp [prepEntries, Acceptor.receive_prepare, hr, hp, hres]⟩
          · simp only [hp] at he
            exact ⟨.opened { a with promised := some b } :: es', p,
              by simp [prepEntries, Acceptor.receive_prepare, hr, hp, he, hres]⟩
        · exact ⟨.opened a :: es', p, by simp [prepEntries, hr, hres]⟩

/-- C5: `prepare(b)` sends exactly one `Promise(local, b, payload)` to
`b.node` when no open slot of the open range rejects `b`, with the
payload ascending in slot order and containing an entry for every open
slot with an accepted pair and for every resolved slot; when some open
slot rejects `b`, it sends exactly one `Reject(local, b, preempting)` to
`b.node` and no promise. -/
theorem prepare_promise_or_reject (r : Replica) (b : Ballot) :
    ((∀ e ∈ r.window.entries, SlotEntry.rejects b e = false) →
      (r.prepare b).2.1 =
        [(b.node, Msg.promise r.config.current b
            (promisePayload r.window.lo r.window.entries))] ∧
      (promisePayload r.window.lo r.window.entries).Pairwise
        (fun x y => x.1 < y.1)) ∧
    ((∃ e ∈ r.window.entries, SlotEntry.rejects b e = true) →
      ∃ p, (r.prepare b).2.1 = [(b.node, Msg.reject r.config.current b p)]) := by
  constructor
  · intro h
    obtain ⟨es', hes'⟩ := prepEntries_no_reject b r.window.entries r.window.lo h
    exact ⟨by simp [Replica.prepare, hes'], promisePayload_sorted _ _⟩
  · intro h
    obtain ⟨es', p, hres⟩ := prepEntries_reject_exists b r.window.entries r.window.lo h
    exact ⟨p, by simp [Replica.prepare, hres]⟩

/-- Witness for C5 at `decidedRep` (no slot rejects ballot `(7,0)`). -/
theorem prepare_promise_or_reject_witness :
    (decidedRep.prepare ⟨7, 0⟩).2.1 =
      [((⟨7, 0⟩ : Ballot).node, Msg.promise decidedRep.config.current ⟨7, 0⟩
          (promisePayload decidedRep.window.lo decidedRep.window.entries))] ∧
    (promisePayload decidedRep.window.lo decidedRep.window.entries).Pairwise
      (fun x y => x.1 < y.1) :=
  (prepare_promise_or_reject decidedRep ⟨7, 0⟩).1 (by decide)

/-- The in-place promise update the phase-1 walk applies to the entries
it traverses without rejection: open unresolved acceptors record `b` as
promised. -/
def notePromised (b : Ballot) : SlotEntry → SlotEntry
  | .empty => .empty
  | .opened a =>
    match a.resolved with
    | some _ => .opened a
    | none => .opened { a with promised := some b }

/-- Decomposed form of the rejecting phase-1 walk: the non-rejecting
prefix keeps its promise updates, the walk stops at the rejecting slot
and the suffix is untouched. -/
theorem prepEntries_reject_decomposition (b : Ballot)
    (es1 : List SlotEntry) :
    ∀ (s : Slot) (es2 : List SlotEntry) (a : Acceptor) (p : Ballot),
      (∀ e ∈ es1, SlotEntry.rejects b e = false) →
      a.resolved = none → a.promised = some p → Ballot.blt b p = true →
      prepEntries b s (es1 ++ .opened a :: es2) =
        .inr (es1.map (notePromised b) ++ .opened a :: es2, b, p) := by
  induction es1 with
  | nil =>
    intro s es2 a p _ hr hp hb
    simp [prepEntries, Acceptor.receive_prepare, hr, hp, hb]
  | cons e rest ih =>
    intro s es2 a p h1 hr hp hb
    have he := h1 e (List.mem_cons_self e rest)
    have hres := ih (s + 1) es2 a p (fun x hx => h1 x (List.mem_cons_of_mem _ hx)) hr hp hb
    cases e with
    | empty => simp [prepEntries, hres, notePromised]
    | opened a0 =>
      rcases hr0 : a0.resolved with _ | ⟨rb, rv⟩
      · simp only [SlotEntry.rejects, hr0, Option.isNone_none, Bool.true_and] at he
        rcases hp0 : a0.promised with _ | p0
        · simp [prepEntries, Acceptor.receive_prepare, hr0, hp0, hres, notePromised]
        · simp only [hp0] at he
          simp [prepEntries, Acceptor.receive_prepare, hr0, hp0, he, hres, notePromised]
      · simp [prepEntries, hr0, hres, notePromised]

/-- C10: on the reject path `prepare(b)` is not atomic; when the open
range splits as a non-rejecting prefix followed by an open slot that
promised `p` with `b < p`, the single `Reject(local, b, p)` goes to
`b.node` while every open unresolved slot of the prefix keeps `b` as its
recorded promise in the final state -- the updates are not rolled back. -/
theorem prepare_reject_not_atomic (r : Replica) (b : Ballot)
    (es1 es2 : List SlotEntry) (a : Acceptor) (p : Ballot)
    (hsplit : r.window.entries = es1 ++ .opened a :: es2)
    (h1 : ∀ e ∈ es1, SlotEntry.rejects b e = false)
    (hr : a.resolved = none) (hp : a.promised = some p)
    (hb : Ballot.blt b p = true) :
    (r.prepare b).2.1 = [(b.node, Msg.reject r.config.current b p)] ∧
    (r.prepare b).1.window.entries =
      es1.map (notePromised b) ++ .opened a :: es2 := by
  have hres := prepEntries_reject_decomposition b es1 r.window.lo es2 a p h1 hr hp hb
  rw [← hsplit] at hres
  constructor <;> simp [Replica.prepare, hres]

/-- Witness state for C10: a fresh open slot 0 followed by slot 1 open
with promised ballot `(5, 3)`. -/
def rejectRep : Replica :=
  { config := cfg5
    proposer := Proposer.new 4 3
    window :=
      { quorum := 3, lo := 0
        entries := [.opened (Acceptor.new 3),
                    .opened { Acceptor.new 3 with promised := some ⟨5, 3⟩ }] }
    proposalQueue := [] }

/-- Witness for C10: `prepare((1,1))` at `rejectRep` rejects at slot 1
while slot 0 keeps the promise update. -/
theorem prepare_reject_not_atomic_witness :
    (rejectRep.prepare ⟨1, 1⟩).2.1 =
      [((⟨1, 1⟩ : Ballot).node, Msg.reject rejectRep.config.current ⟨1, 1⟩ ⟨5, 3⟩)] ∧
    (rejectRep.prepare ⟨1, 1⟩).1.window.entries =
      [SlotEntry.opened (Acceptor.new 3)].map (notePromised ⟨1, 1⟩) ++
        .opened { Acceptor.new 3 with promised := some ⟨5, 3⟩ } :: [] :=
  prepare_reject_not_atomic rejectRep ⟨1, 1⟩
    [.opened (Acceptor.new 3)] []
    { Acceptor.new 3 with promised := some ⟨5, 3⟩ } ⟨5, 3⟩
    (by decide) (by decide) (by decide) (by decide) (by decide)

/-! In-order application: executions are strictly ascending, unique and
never the no-op. -/

/-- `slot_mut` never moves the low-water mark. -/
theorem slot_mut_lo (w : SlotWindow) (s : Slot) : ((w.slot_mut s).1).lo = w.lo := by
  unfold SlotWindow.slot_mut
  split
  · rfl
  · split <;> rfl

/-- `setEntry` never moves the low-water mark. -/
theorem setEntry_lo (w : SlotWindow) (s : Slot) (e : SlotEntry) :
    (w.setEntry s e).lo = w.lo := rfl

/-- `updateOpened` never moves the low-water mark. -/
theorem updateOpened_lo (w : SlotWindow) (s : Slot) (f : Acceptor → Acceptor) :
    (w.updateOpened s f).lo = w.lo := by
  unfold SlotWindow.updateOpened
  split <;> rfl

/-- `next_slot` never moves the low-water mark. -/
theorem next_slot_lo (w : SlotWindow) : ((w.next_slot).1).lo = w.lo := rfl

/-- Seeding a recovered value never moves the low-water mark. -/
theorem seedSlot_lo (w : SlotWindow) (t : Slot × Ballot × Value) :
    (seedSlot w t).lo = w.lo := by
  unfold seedSlot
  rcases hv : (w.slot_mut t.1).2 <;> simp [hv, SlotWindow.setEntry, slot_mut_lo]

/-- Seeding a promise payload never moves the low-water mark. -/
theorem foldl_seedSlot_lo (l : List (Slot × Ballot × Value)) :
    ∀ w : SlotWindow, (l.foldl seedSlot w).lo = w.lo := by
  induction l with
  | nil => intro w; rfl
  | cons t ts ih => intro w; rw [List.foldl_cons, ih, seedSlot_lo]

/-- Binding one queued proposal never moves the low-water mark. -/
theorem queueSlot_lo (bal : Ballot) (w : SlotWindow) (v : Value) :
    (queueSlot bal w v).lo = w.lo := by
  unfold queueSlot
  simp [updateOpened_lo, next_slot_lo]

/-- Draining the proposal queue never moves the low-water mark. -/
theorem foldl_queueSlot_lo (bal : Ballot) (l : List Value) :
    ∀ w : SlotWindow, (l.foldl (queueSlot bal) w).lo = w.lo := by
  induction l with
  | nil => intro w; rfl
  | cons v vs ih => intro w; rw [List.foldl_cons, ih, queueSlot_lo]

/-- `drive_accept` never moves the low-water mark. -/
theorem drive_accept_window_lo (r : Replica) :
    ((r.drive_accept).1).window.lo = r.window.lo := by
  unfold Replica.drive_accept
  rcases hs : r.proposer.status <;> simp [hs, foldl_queueSlot_lo]

/-- The decisions drained by one `drainLoop` lie in `[lo, lo')`, are
strictly ascending, and the final mark `lo'` is at or above `lo`. -/
theorem drainLoop_spec :
    ∀ (es : List SlotEntry) (lo : Nat),
      lo ≤ (drainLoop lo es).1 ∧
      (∀ x ∈ (drainLoop lo es).2.2, lo ≤ x.1 ∧ x.1 < (drainLoop lo es).1) ∧
      ((drainLoop lo es).2.2).Pairwise (fun x y => x.1 < y.1) := by
  intro es
  induction es with
  | nil => intro lo; simp [drainLoop]
  | cons e rest ih =>
    intro lo
    cases e with
    | empty => simp [drainLoop]
    | opened a =>
      rcases hr : a.resolved with _ | ⟨b, v⟩
      · simp [drainLoop, hr]
      · obtain ⟨ih1, ih2, ih3⟩ := ih (lo + 1)
        refine ⟨?_, ?_, ?_⟩
        · simp only [drainLoop, hr]
          exact le_trans (Nat.le_succ lo) ih1
        · intro x hx
          simp only [drainLoop, hr, List.mem_cons] at hx ⊢
          rcases hx with rfl | hx
          · exact ⟨le_refl _, lt_of_lt_of_le (Nat.lt_succ_self lo) ih1⟩
          · obtain ⟨ha, hb⟩ := ih2 x hx
            exact ⟨Nat.le_of_succ_le ha, hb⟩
        · simp only [drainLoop, hr]
          refine List.pairwise_cons.2 ⟨fun y hy => ?_, ih3⟩
          exact lt_of_lt_of_le (Nat.lt_succ_self lo) (ih2 y hy).1

/-- `execute_decisions` raises the low-water mark, executes only slots in
`[lo, lo')` in strictly ascending order, and never the no-op. -/
theorem execute_decisions_bounds (R : Replica) (lo0 : Nat)
    (hlo : R.window.lo = lo0) :
    lo0 ≤ (R.execute_decisions).1.window.lo ∧
    (∀ x ∈ (R.execute_decisions).2,
      lo0 ≤ x.1 ∧ x.1 < (R.execute_decisions).1.window.lo ∧ x.2 ≠ []) ∧
    ((R.execute_decisions).2).Pairwise (fun x y => x.1 < y.1) := by
  obtain ⟨h1, h2, h3⟩ := drainLoop_spec R.window.entries R.window.lo
  unfold Replica.execute_decisions SlotWindow.drain_decisions
  dsimp only
  subst hlo
  refine ⟨h1, fun x hx => ?_, ?_⟩
  · have hx' := List.mem_of_mem_filter hx
    have hfil := List.of_mem_filter hx
    obtain ⟨ha, hb⟩ := h2 x hx'
    refine ⟨ha, hb, ?_⟩
    simpa [List.isEmpty_iff] using hfil
  · exact h3.sublist (List.filter_sublist _)

/-- `Commander::proposal` executes nothing and keeps the mark. -/
theorem proposal_execs (r : Replica) (v : Value) :
    ((r.proposal v).1).window.lo = r.window.lo ∧ (r.proposal v).2.2 = [] := by
  unfold Replica.proposal
  rcases hs : r.proposer.status <;> rcases hh : r.proposer.highestObserved with _ | hb <;>
    simp [hs, hh, updateOpened_lo, next_slot_lo]

/-- `Commander::prepare` executes nothing and keeps the mark. -/
theorem prepare_execs (r : Replica) (b : Ballot) :
    ((r.prepare b).1).window.lo = r.window.lo ∧ (r.prepare b).2.2 = [] := by
  unfold Replica.prepare
  rcases hm : prepEntries b r.window.lo r.window.entries with ⟨es, acc⟩ | ⟨es, pp⟩ <;>
    simp [hm]

/-- `Commander::promise` executes nothing and keeps the mark. -/
theorem promise_execs (r : Replica) (n : NodeId) (b : Ballot)
    (acc : List (Slot × Ballot × Value)) :
    ((r.promise n b acc).1).window.lo = r.window.lo ∧ (r.promise n b acc).2.2 = [] := by
  unfold Replica.promise
  rcases hs : r.proposer.status <;> simp [hs]
  rw [drive_accept_window_lo]
  simp [foldl_seedSlot_lo]

/-- `Commander::accept` executes nothing and keeps the mark. -/
theorem accept_execs (r : Replica) (s : Slot) (b : Ballot) (v : Value) :
    ((r.accept s b v).1).window.lo = r.window.lo ∧ (r.accept s b v).2.2 = [] := by
  unfold Replica.accept
  rcases hv : (r.window.slot_mut s).2 with _ | a | ⟨b0, v0⟩ | _ <;>
    simp [hv, SlotWindow.setEntry, slot_mut_lo] <;>
    split <;> simp [SlotWindow.setEntry, slot_mut_lo]

/-- `forward` never touches the window. -/
theorem forward_window (r : Replica) : ((r.forward).1).window = r.window := by
  unfold Replica.forward
  split
  · rfl
  · rcases r.proposer.highestObserved <;> rfl

/-- `Commander::reject` executes nothing and keeps the mark. -/
theorem reject_execs (r : Replica) (n : NodeId) (p q : Ballot) :
    ((r.reject n p q).1).window.lo = r.window.lo ∧ (r.reject n p q).2.2 = [] := by
  unfold Replica.reject
  exact ⟨by rw [forward_window], rfl⟩

/-- `Commander::accepted` executes only slots in `[lo, lo')`, ascending
and never the no-op. -/
theorem accepted_execs (r : Replica) (n : NodeId) (s : Slot) (b : Ballot) :
    r.window.lo ≤ ((r.accepted n s b).1).window.lo ∧
    (∀ x ∈ (r.accepted n s b).2.2,
      r.window.lo ≤ x.1 ∧ x.1 < ((r.accepted n s b).1).window.lo ∧ x.2 ≠ []) ∧
    ((r.accepted n s b).2.2).Pairwise (fun x y => x.1 < y.1) := by
  unfold Replica.accepted
  rcases hv : (r.window.slot_mut s).2 with _ | a | ⟨b0, v0⟩ | _
  · simp [hv, slot_mut_lo]
  · simp only [hv]
    exact execute_decisions_bounds _ r.window.lo
      (by simp [SlotWindow.setEntry, slot_mut_lo])
  · simp [hv, slot_mut_lo]
  · simp [hv, slot_mut_lo]

/-- `Commander::resolution` executes only slots in `[lo, lo')`, ascending
and never the no-op. -/
theorem resolution_execs (r : Replica) (s : Slot) (b : Ballot) (v : Value) :
    r.window.lo ≤ ((r.resolution s b v).1).window.lo ∧
    (∀ x ∈ (r.resolution s b v).2.2,
      r.window.lo ≤ x.1 ∧ x.1 < ((r.resolution s b v).1).window.lo ∧ x.2 ≠ []) ∧
    ((r.resolution s b v).2.2).Pairwise (fun x y => x.1 < y.1) := by
  unfold Replica.resolution
  rcases hv : (r.window.slot_mut s).2 with _ | a | ⟨b0, v0⟩ | _ <;>
    exact execute_decisions_bounds _ r.window.lo
      (by simp [hv, SlotWindow.setEntry, slot_mut_lo])

/-- One inbound operation raises the mark, and executes only slots in
`[lo, lo')`, strictly ascending, never the no-op. -/
theorem step_execs_spec (r : Replica) (op : Op) :
    r.window.lo ≤ ((r.step op).1).window.lo ∧
    (∀ x ∈ (r.step op).2.2,
      r.window.lo ≤ x.1 ∧ x.1 < ((r.step op).1).window.lo ∧ x.2 ≠ []) ∧
    ((r.step op).2.2).Pairwise (fun x y => x.1 < y.1) := by
  cases op with
  | proposal v =>
    obtain ⟨h1, h2⟩ := proposal_execs r v
    simp only [Replica.step]
    rw [h1, h2]
    simp
  | prepare b =>
    obtain ⟨h1, h2⟩ := prepare_execs r b
    simp only [Replica.step]
    rw [h1, h2]
    simp
  | promise n b acc =>
    obtain ⟨h1, h2⟩ := promise_execs r n b acc
    simp only [Replica.step]
    rw [h1, h2]
    simp
  | accept s b v =>
    obtain ⟨h1, h2⟩ := accept_execs r s b v
    simp only [Replica.step]
    rw [h1, h2]
    simp
  | reject n p q =>
    obtain ⟨h1, h2⟩ := reject_execs r n p q
    simp only [Replica.step]
    rw [h1, h2]
    simp
  | accepted n s b =>
    simpa only [Replica.step] using accepted_execs r n s b
  | resolution s b v =>
    simpa only [Replica.step] using resolution_execs r s b v

/-- A whole run raises the mark and executes only slots in `[lo, lo')`,
strictly ascending, never the no-op. -/
theorem run_execs_spec (ops : List Op) :
    ∀ r : Replica,
      r.window.lo ≤ ((r.run ops).1).window.lo ∧
      (∀ x ∈ (r.run ops).2.2,
        r.window.lo ≤ x.1 ∧ x.1 < ((r.run ops).1).window.lo ∧ x.2 ≠ []) ∧
      ((r.run ops).2.2).Pairwise (fun x y => x.1 < y.1) := by
  induction ops with
  | nil => intro r; simp [Replica.run]
  | cons op ops ih =>
    intro r
    obtain ⟨s1, s2, s3⟩ := step_execs_spec r op
    obtain ⟨t1, t2, t3⟩ := ih (r.step op).1
    refine ⟨le_trans s1 t1, fun x hx => ?_, ?_⟩
    · simp only [Replica.run, List.mem_append] at hx
      rcases hx with hx | hx
      · obtain ⟨ha, hb, hc⟩ := s2 x hx
        exact ⟨ha, lt_of_lt_of_le hb t1, hc⟩
      · obtain ⟨ha, hb, hc⟩ := t2 x hx
        exact ⟨le_trans s1 ha, hb, hc⟩
    · show ((r.step op).2.2 ++ ((r.step op).1.run ops).2.2).Pairwise _
      refine List.pairwise_append.2 ⟨s3, t3, fun x hx y hy => ?_⟩
      exact lt_of_lt_of_le (s2 x hx).2.1 (t2 y hy).1

/-- C1: over any sequence of inbound operations from a fresh replica, the
state-machine execution trace is strictly ascending in the slot (hence
each slot is executed at most once) and never carries the no-op value:
drained decisions with empty values are skipped. -/
theorem execute_in_order_and_no_noop (cfg : Configuration) (ops : List Op) :
    (((Replica.new cfg).run ops).2.2).Pairwise (fun x y => x.1 < y.1) ∧
    (((Replica.new cfg).run ops).2.2).all (fun x => !x.2.isEmpty) = true := by
  obtain ⟨_, h2, h3⟩ := run_execs_spec ops (Replica.new cfg)
  refine ⟨h3, List.all_eq_true.2 fun x hx => ?_⟩
  have hne := (h2 x hx).2.2
  simpa [List.isEmpty_iff] using hne

end Paxos
